import Mathlib

/-!
# File-to-stream: verification of the streaming-proxy core

Shallow embedding of the range-streaming core of the repository:

* `yield_loop` / `yield_file` embed `ByteStreamer.yield_file`
  (src/webserver.py lines 60-93; the identical loop appears in
  src/app.py lines 76-96),
* `compute_plan` embeds the chunk-plan arithmetic of the `/dl` handlers
  (src/webserver.py lines 168-173, src/app.py line 120),
* `stream_handler` embeds the `/dl` route of src/webserver.py (lines 134-192),
* `stream_media` embeds the `/dl` route of src/app.py (lines 108-126),
* `select_min` / `select_index` embed
  `min(work_loads, key=work_loads.get, default=0)`
  (src/webserver.py line 138, src/app.py line 110),
* `adjust_load` embeds `work_loads[index] += 1` / `-= 1`.

Python integers are embedded as `Int`; for a positive modulus Python `%` is
`Int.emod` and Python `//` is `Int.ediv`.  Byte strings are embedded as
`List Nat`; a Python slice `b[i:j]` with `0 ≤ i, j` is
`(b.take j).drop i`, `b[i:]` is `b.drop i` and `b[:j]` is `b.take j`
(every plan produced by the handlers has non-negative cuts, proved below).
-/

namespace FileToStream

/-- The fixed `chunk_size = 1024 * 1024` used by both `/dl` handlers. -/
def chunk_size : Int := 1024 * 1024

/-- Exact `math.ceil(a / b)` for integers `a` and positive `b`
(`part_count = math.ceil(req_length / chunk_size)`). -/
def ceil_div (a b : Int) : Int := -((-a) / b)

/-- Outcome of one `upload.GetFile` round trip, as inspected by the fetch
loop of `yield_file`: a `raw.types.upload.File` carrying its `bytes`
payload, a response of any other type, or an exception raised by the
`send`/`invoke` call itself. -/
inductive FetchResult where
  | file (bytes : List Nat)
  | other
  | err
deriving DecidableEq

/-- Holds (`true`) iff the result is an `upload.File` with a non-empty
payload; the fetch loop continues exactly on such results. -/
def keeps_going : FetchResult → Bool
  | .file bytes => !bytes.isEmpty
  | _ => false

/-- Holds (`true`) iff the result makes the loop `break` silently: a
response that is not an `upload.File`, or one with empty `bytes`. -/
def silent_end : FetchResult → Bool
  | .file bytes => bytes.isEmpty
  | .other => true
  | .err => false

/-- Trace of one complete run of the fetch loop of `yield_file`:
the chunks yielded in order, the offsets passed to the successive
`upload.GetFile` calls, and whether an exception escaped the loop. -/
structure LoopOut where
  yielded : List (List Nat)
  offsets : List Int
  errored : Bool
deriving DecidableEq

/-- The `while current_part <= part_count` loop of `ByteStreamer.yield_file`
(src/webserver.py lines 75-91).  `fuel` bounds the recursion; the loop body
runs at most `part_count` times from `current_part = 1`, so
`part_count.toNat` fuel is exact (see `yield_file`). -/
def yield_loop (fetch : Int → FetchResult)
    (first_part_cut last_part_cut part_count chunkSize : Int) :
    Nat → Int → Int → LoopOut
  | 0, _, _ => ⟨[], [], false⟩
  | fuel + 1, current_part, offset =>
    if current_part ≤ part_count then
      match fetch offset with
      | .err => ⟨[], [offset], true⟩
      | .other => ⟨[], [offset], false⟩
      | .file chunk =>
        if chunk.isEmpty then ⟨[], [offset], false⟩
        else
          let piece :=
            if part_count = 1 then
              (chunk.take last_part_cut.toNat).drop first_part_cut.toNat
            else if current_part = 1 then chunk.drop first_part_cut.toNat
            else if current_part = part_count then chunk.take last_part_cut.toNat
            else chunk
          let rest := yield_loop fetch first_part_cut last_part_cut part_count
            chunkSize fuel (current_part + 1) (offset + chunkSize)
          ⟨piece :: rest.yielded, offset :: rest.offsets, rest.errored⟩
    else ⟨[], [], false⟩

/-- One full run of the fetch loop of `ByteStreamer.yield_file`, starting
from `current_part = 1` at the plan's `offset`. -/
def yield_file (fetch : Int → FetchResult)
    (offset first_part_cut last_part_cut part_count chunkSize : Int) : LoopOut :=
  yield_loop fetch first_part_cut last_part_cut part_count chunkSize
    part_count.toNat 1 offset

/-- Total number of bytes in the yielded chunks. -/
def total_bytes (out : LoopOut) : Nat := (out.yielded.map List.length).sum

/-- The backend behaviour assumed by the spec's counting properties: a fetch
at `offset` returns the next `chunkSize` bytes of the file, or the bytes
remaining past `offset` for the final chunk (empty once `offset` is past the
end).  Byte values are irrelevant to the claims, so the payload is zeros. -/
def full_fetch (file_size chunkSize : Int) (offset : Int) : FetchResult :=
  .file (List.replicate (min chunkSize (file_size - offset)).toNat 0)

/-- The update `work_loads[i] += d` on the `work_loads` dict, embedded as
an insertion-ordered association list (key = client id). -/
def adjust_load (wl : List (Int × Int)) (i d : Int) : List (Int × Int) :=
  wl.map fun p => if p.1 = i then (p.1, p.2 + d) else p

/-- Environment of one `yield_file` call: whether the media-session setup
(src/webserver.py lines 64-72, run after the increment and before the
`try`) completes without raising, and the behaviour of the backend. -/
structure StreamEnv where
  setup_ok : Bool
  fetch : Int → FetchResult

/-- One generator run of `ByteStreamer.yield_file`, tracking the
`work_loads` map.  Semantics of the source generator:

* `work_loads[index] += 1` runs first (line 62);
* the media-session setup (lines 64-72) runs next, outside the
  `try`/`finally`: if it raises, the exception propagates and the
  `finally` never runs;
* otherwise the fetch loop runs inside `try`, and the
  `finally: work_loads[index] -= 1` (lines 92-93) runs on every exit from
  it: exhaustion, `break`, an exception from a fetch, and a
  `GeneratorExit` thrown at a `yield` when the consumer closes or cancels
  the generator — `consume = some k` models a consumer that stops after
  `k` chunks, `none` a consumer that drains the stream. -/
def run_yield_file (env : StreamEnv) (index : Int)
    (offset first_part_cut last_part_cut part_count chunkSize : Int)
    (consume : Option Nat) (wl : List (Int × Int)) :
    List (Int × Int) × List (List Nat) :=
  let wl1 := adjust_load wl index 1
  if env.setup_ok then
    let out := yield_file env.fetch offset first_part_cut last_part_cut
      part_count chunkSize
    (adjust_load wl1 index (-1),
      match consume with
      | none => out.yielded
      | some k => out.yielded.take k)
  else
    (wl1, [])

/-- The per-request chunk plan computed by the `/dl` handlers. -/
structure BytePlan where
  offset : Int
  first_part_cut : Int
  last_part_cut : Int
  part_count : Int
deriving DecidableEq

/-- The plan arithmetic of `stream_handler` (src/webserver.py lines
168-173):
`offset = from_bytes - (from_bytes % chunk_size)`,
`first_part_cut = from_bytes - offset`,
`last_part_cut = (until_bytes % chunk_size) + 1`,
`part_count = math.ceil(req_length / chunk_size)`.
src/app.py line 120 writes `offset` as `(fb // cs) * cs`, which agrees
(see `compute_plan_offset_ediv`). -/
def compute_plan (chunkSize from_bytes until_bytes : Int) : BytePlan :=
  let req_length := until_bytes - from_bytes + 1
  let offset := from_bytes - from_bytes % chunkSize
  { offset := offset
    first_part_cut := from_bytes - offset
    last_part_cut := until_bytes % chunkSize + 1
    part_count := ceil_div req_length chunkSize }

/-- The media object attached to the resolved message, as far as the `/dl`
handlers read it (`media.file_size`, `media.mime_type`). -/
structure MediaInfo where
  file_size : Int
  mime_type : Option String
deriving DecidableEq

/-- A parsed `Range: bytes=<from>-<until>` header: `none` when the header
is absent (or falsy), otherwise the parsed `<from>` and the parsed
`<until>` (`none` when the `<until>` part is the empty string). -/
abbrev RangeHeader := Option (Int × Option Int)

/-- Fallback of `media.mime_type or "application/octet-stream"`. -/
def default_mime : String := "application/octet-stream"

/-- The response headers built by the `/dl` handlers, with
`Content-Range` kept structured as `(from, until, file_size)` and the
constant-valued `Accept-Ranges` / `Content-Disposition` entries modelled
as presence flags. -/
structure RespHeaders where
  content_type : String
  content_range : Option (Int × Int × Int)
  content_length : Int
  accept_ranges : Bool
  content_disposition : Bool
deriving DecidableEq

/-- Observable outcome of a `/dl` request: a `StreamingResponse` carrying a
status, headers and the plan handed to `yield_file`, or an error status. -/
inductive DlResponse where
  | stream (status : Int) (headers : RespHeaders) (plan : BytePlan)
  | failure (status : Int)
deriving DecidableEq

/-- The HTTP status of a `/dl` outcome. -/
def DlResponse.status : DlResponse → Int
  | .stream s _ _ => s
  | .failure s => s

/-- The headers of a `/dl` outcome, when it is a streaming response. -/
def DlResponse.headers : DlResponse → Option RespHeaders
  | .stream _ h _ => some h
  | .failure _ => none

/-- The plan of a `/dl` outcome, when it is a streaming response. -/
def DlResponse.plan : DlResponse → Option BytePlan
  | .stream _ _ p => some p
  | .failure _ => none

/-- The `/dl` route `stream_handler` of src/webserver.py (lines 134-192).

* `client_available = false` embeds `multi_clients.get(index)` returning
  `None`: `HTTPException(503)` is raised before the `try` block and
  surfaces as 503.
* `media = none` embeds a message without document/video/audio (or an
  empty message): `FileNotFoundError` is raised, caught by
  `except FileNotFoundError`, and becomes 404.
* An invalid range raises `HTTPException(416, ...)` inside the `try`
  block; `fastapi.HTTPException` is a subclass of `Exception`, so the
  blanket `except Exception` (line 190) catches it and the observable
  response is 500, not 416 (in webserver.py the handler body additionally
  hits `NameError: traceback` on line 191, which still surfaces as 500 at
  the server layer).
* On the success path the headers dict (lines 180-186) always contains
  `Content-Range`, for ranged and un-ranged requests alike. -/
def stream_handler (client_available : Bool) (media : Option MediaInfo)
    (range_header : RangeHeader) : DlResponse :=
  if !client_available then .failure 503
  else
    match media with
    | none => .failure 404
    | some m =>
      let file_size := m.file_size
      let from_bytes := match range_header with
        | none => 0
        | some (f, _) => f
      let until_bytes := match range_header with
        | none => file_size - 1
        | some (_, none) => file_size - 1
        | some (_, some u) => u
      if until_bytes ≥ file_size ∨ from_bytes < 0 then .failure 500
      else
        .stream (if range_header.isSome then 206 else 200)
          { content_type := m.mime_type.getD default_mime
            content_range := some (from_bytes, until_bytes, file_size)
            content_length := until_bytes - from_bytes + 1
            accept_ranges := true
            content_disposition := true }
          (compute_plan chunk_size from_bytes until_bytes)

/-- The `/dl` route `stream_media` of src/app.py (lines 108-126).

Differences from `stream_handler` that matter here:

* when the `Range` header is absent (or falsy), line 117 does not run, so
  the local `ubs` is never assigned and line 118 (`if ubs:`) raises
  `UnboundLocalError`; the blanket `except Exception` turns it into 500 —
  no request without a `Range` header ever reaches the success path;
* consequently every success has a truthy `Range` header, so the status
  is always 206, and `Content-Range` (added only under `if rh:` on line
  123) is present on exactly the partial responses;
* the invalid-range `HTTPException(416)` is swallowed by
  `except Exception` into 500 exactly as in webserver.py. -/
def stream_media (client_available : Bool) (media : Option MediaInfo)
    (range_header : RangeHeader) : DlResponse :=
  if !client_available then .failure 503
  else
    match media with
    | none => .failure 404
    | some m =>
      let fsize := m.file_size
      match range_header with
      | none => .failure 500
      | some (fb, u) =>
        let ub := match u with
          | none => fsize - 1
          | some x => x
        if ub ≥ fsize ∨ fb < 0 then .failure 500
        else
          .stream 206
            { content_type := m.mime_type.getD default_mime
              content_range := some (fb, ub, fsize)
              content_length := ub - fb + 1
              accept_ranges := true
              content_disposition := true }
            (compute_plan chunk_size fb ub)

/-- Python `min(iterable, key=...)` with the load as key: `min` scans the
iterable and replaces the current best only on a strictly smaller key, so
it returns the first element attaining the minimum. -/
def select_min : (Int × Int) → List (Int × Int) → (Int × Int)
  | best, [] => best
  | best, p :: rest =>
    if p.2 < best.2 then select_min p rest else select_min best rest

/-- The selection `index = min(work_loads, key=work_loads.get, default=0)`
(src/webserver.py line 138, src/app.py line 110): the dict key with the
minimal value, first-in-insertion-order among ties; `0` for an empty
dict. -/
def select_index (wl : List (Int × Int)) : Int :=
  match wl with
  | [] => 0
  | p :: rest => (select_min p rest).1

/-- The total byte count implied by a plan under the slicing rule of the
fetch loop, as stated by the spec's plan invariant: `lastCut - firstCut`
for a one-part plan, and
`(chunkSize - firstCut) + (partCount - 2) * chunkSize + lastCut`
otherwise. -/
def implied_total (chunkSize : Int) (p : BytePlan) : Int :=
  if p.part_count = 1 then p.last_part_cut - p.first_part_cut
  else (chunkSize - p.first_part_cut) + (p.part_count - 2) * chunkSize
    + p.last_part_cut

/-- The offsets `from_bytes - (from_bytes % chunk_size)` (webserver.py)
and `(fb // cs) * cs` (app.py) agree. -/
theorem compute_plan_offset_ediv (cs fb ub : Int) :
    (compute_plan cs fb ub).offset = fb / cs * cs := by
  have h := Int.ediv_add_emod fb cs
  rw [mul_comm] at h
  simp only [compute_plan]
  linarith

/-- Incrementing and then decrementing the same key restores the
`work_loads` map: the `finally` of `yield_file` exactly undoes the entry
increment. -/
theorem adjust_load_cancel (wl : List (Int × Int)) (i : Int) :
    adjust_load (adjust_load wl i 1) i (-1) = wl := by
  simp only [adjust_load, List.map_map]
  have h : ((fun p : Int × Int => if p.1 = i then (p.1, p.2 + -1) else p) ∘
      fun p : Int × Int => if p.1 = i then (p.1, p.2 + 1) else p) = id := by
    funext p
    obtain ⟨a, b⟩ := p
    by_cases hp : a = i <;> simp [hp]
  rw [h, List.map_id]

/-- C4, amended: whenever the media-session setup does not raise, every
run of `yield_file` — exhaustion of all parts, early end-of-data, an
error during a fetch, or the consumer closing/cancelling after any number
of chunks — leaves `work_loads` exactly as it was before the request. -/
theorem claim_C4_amended (env : StreamEnv)
    (index offset first_part_cut last_part_cut part_count chunkSize : Int)
    (consume : Option Nat) (wl : List (Int × Int))
    (h : env.setup_ok = true) :
    (run_yield_file env index offset first_part_cut last_part_cut part_count
      chunkSize consume wl).1 = wl := by
  simp [run_yield_file, h, adjust_load_cancel]

/-- Witness for `claim_C4_amended` at a concrete environment: a two-entry
pool, a two-part plan that ends early on a non-`upload.File` response, a
drained consumer. -/
theorem claim_C4_witness :
    (⟨true, fun _ => FetchResult.other⟩ : StreamEnv).setup_ok = true ∧
    (run_yield_file ⟨true, fun _ => FetchResult.other⟩ 0 0 0 1 2 1 none
      [(0, 5), (1, 7)]).1 = [(0, 5), (1, 7)] :=
  ⟨rfl, claim_C4_amended ⟨true, fun _ => FetchResult.other⟩ 0 0 0 1 2 1 none
    [(0, 5), (1, 7)] rfl⟩

/-- C4, counterexample to the claim as stated: the increment
(`work_loads[index] += 1`, line 62 of src/webserver.py) runs before the
media-session setup (lines 64-72), which runs outside the
`try`/`finally`.  If that setup raises, the generator exits without the
decrement, so the counter does not return to its pre-request value. -/
theorem claim_C4_counterexample :
    (run_yield_file ⟨false, fun _ => FetchResult.other⟩ 0 0 0 1 1 1 none
      [(0, 0)]).1 ≠ [(0, 0)] := by
  decide

/-- C6, counterexample to the claim as stated: for the valid request
`from_bytes = 1048575`, `until_bytes = 1048576` (file size 3·2²⁰), the
plan is `⟨0, 1048575, 1, 1⟩` and the total implied by the slicing rule is
`1 - 1048575 ≠ 2 = until_bytes - from_bytes + 1`. -/
theorem claim_C6_counterexample :
    implied_total chunk_size (compute_plan chunk_size 1048575 1048576) ≠
      1048576 - 1048575 + 1 := by
  decide

/-- C6, amended: for every plan the handler computes from a valid request
(`0 ≤ from_bytes ≤ until_bytes < file_size`, `chunk_size = 2²⁰`), the
bounds `0 ≤ firstCut < chunkSize`, `0 < lastCut ≤ chunkSize` and
`partCount ≥ 1` hold, and the total bytes implied by the plan's slicing
rule equal `until_bytes - from_bytes + 1` exactly when
`from_bytes % chunk_size ≤ until_bytes % chunk_size`; otherwise
`part_count` undercounts the chunk boundaries crossed and the implied
total falls short by exactly `chunk_size`. -/
theorem claim_C6_amended (from_bytes until_bytes file_size : Int)
    (_h0 : 0 ≤ from_bytes) (h1 : from_bytes ≤ until_bytes)
    (_h2 : until_bytes < file_size) :
    0 ≤ (compute_plan chunk_size from_bytes until_bytes).first_part_cut ∧
    (compute_plan chunk_size from_bytes until_bytes).first_part_cut < chunk_size ∧
    0 < (compute_plan chunk_size from_bytes until_bytes).last_part_cut ∧
    (compute_plan chunk_size from_bytes until_bytes).last_part_cut ≤ chunk_size ∧
    1 ≤ (compute_plan chunk_size from_bytes until_bytes).part_count ∧
    implied_total chunk_size (compute_plan chunk_size from_bytes until_bytes) =
      (if from_bytes % chunk_size ≤ until_bytes % chunk_size
        then until_bytes - from_bytes + 1
        else until_bytes - from_bytes + 1 - chunk_size) := by
  simp only [compute_plan, implied_total, ceil_div, chunk_size]
  split <;> split <;> omega

/-- Witness for `claim_C6_amended` at `from_bytes = 0`,
`until_bytes = 1500000`, `file_size = 3·2²⁰`. -/
theorem claim_C6_witness :
    ((0 : Int) ≤ 0 ∧ (0 : Int) ≤ 1500000 ∧ (1500000 : Int) < 3 * 1048576) ∧
    (0 ≤ (compute_plan chunk_size 0 1500000).first_part_cut ∧
      (compute_plan chunk_size 0 1500000).first_part_cut < chunk_size ∧
      0 < (compute_plan chunk_size 0 1500000).last_part_cut ∧
      (compute_plan chunk_size 0 1500000).last_part_cut ≤ chunk_size ∧
      1 ≤ (compute_plan chunk_size 0 1500000).part_count ∧
      implied_total chunk_size (compute_plan chunk_size 0 1500000) =
        (if (0 : Int) % chunk_size ≤ (1500000 : Int) % chunk_size
          then 1500000 - 0 + 1
          else 1500000 - 0 + 1 - chunk_size)) :=
  ⟨⟨by decide, by decide, by decide⟩,
    claim_C6_amended 0 1500000 (3 * 1048576) (by decide) (by decide) (by decide)⟩

/-- The pair chosen by `select_min` is an element of the scanned list. -/
theorem select_min_mem (best : Int × Int) (l : List (Int × Int)) :
    select_min best l ∈ best :: l := by
  induction l generalizing best with
  | nil => simp [select_min]
  | cons p rest ih =>
    simp only [select_min]
    split
    · have h := ih p
      simp only [List.mem_cons] at h ⊢
      tauto
    · have h := ih best
      simp only [List.mem_cons] at h ⊢
      tauto

/-- The value of the entry selected by `select_min` is minimal among the
scanned entries. -/
theorem select_min_le (best : Int × Int) (l : List (Int × Int)) :
    ∀ p ∈ best :: l, (select_min best l).2 ≤ p.2 := by
  induction l generalizing best with
  | nil =>
    intro p hp
    simp only [List.mem_cons, List.not_mem_nil, or_false] at hp
    simp [select_min, hp]
  | cons q rest ih =>
    intro p hp
    simp only [List.mem_cons] at hp
    simp only [select_min]
    split <;> rename_i hlt
    · have hq := ih q q (List.mem_cons_self q rest)
      rcases hp with h | h | h
      · subst h; omega
      · subst h; exact hq
      · exact ih q p (List.mem_cons_of_mem q h)
    · rcases hp with h | h | h
      · exact ih best p (by simp [h])
      · have hb := ih best best (List.mem_cons_self best rest)
        subst h; omega
      · exact ih best p (List.mem_cons_of_mem best h)

/-- Scanning keeps the initial candidate unless it finds a strictly
smaller value: Python's `min` replaces its running best only on `<`. -/
theorem select_min_eq_or_lt (best : Int × Int) (l : List (Int × Int)) :
    select_min best l = best ∨ (select_min best l).2 < best.2 := by
  induction l generalizing best with
  | nil => left; rfl
  | cons q rest ih =>
    simp only [select_min]
    split <;> rename_i h
    · rcases ih q with h2 | h2
      · right; rw [h2]; exact h
      · right; omega
    · exact ih best

/-- Among entries attaining the minimal value, `select_min` returns the
one with the least key, provided keys are strictly ascending in scan
order (Python's `min` keeps the first minimum, and insertion order is
ascending key order). -/
theorem select_min_first (best : Int × Int) (l : List (Int × Int))
    (hs : (best :: l).Pairwise (fun p q => p.1 < q.1)) :
    ∀ p ∈ best :: l, p.2 = (select_min best l).2 →
      (select_min best l).1 ≤ p.1 := by
  induction l generalizing best with
  | nil =>
    intro p hp _
    simp only [List.mem_cons, List.not_mem_nil, or_false] at hp
    simp [select_min, hp]
  | cons q rest ih =>
    intro p hp hv
    have hbq : best.1 < q.1 := (List.pairwise_cons.mp hs).1 q (List.mem_cons_self q rest)
    have hs' : (q :: rest).Pairwise (fun p q => p.1 < q.1) :=
      (List.pairwise_cons.mp hs).2
    have hsbr : (best :: rest).Pairwise (fun p q => p.1 < q.1) :=
      hs.sublist (List.Sublist.cons₂ best (List.sublist_cons_self q rest))
    simp only [List.mem_cons] at hp
    simp only [select_min] at hv ⊢
    by_cases hlt : q.2 < best.2
    · simp only [if_pos hlt] at hv ⊢
      have hle := select_min_le q rest q (List.mem_cons_self q rest)
      rcases hp with h | h | h
      · subst h; omega
      · exact ih q hs' p (by simp [h]) hv
      · exact ih q hs' p (List.mem_cons_of_mem q h) hv
    · simp only [if_neg hlt] at hv ⊢
      rcases hp with h | h | h
      · exact ih best hsbr p (by simp [h]) hv
      · subst h
        rcases select_min_eq_or_lt best rest with h2 | h2
        · rw [h2]; omega
        · omega
      · exact ih best hsbr p (List.mem_cons_of_mem best h) hv

/-- C7 (confirmed): with at least one session registered and sessions
registered in ascending identifier order,
`index = min(work_loads, key=work_loads.get, default=0)` selects an entry
whose load counter is ≤ every registered counter, and among entries with
the minimal counter it selects the least session identifier. -/
theorem claim_C7 (best : Int × Int) (rest : List (Int × Int))
    (hs : (best :: rest).Pairwise (fun p q => p.1 < q.1)) :
    select_index (best :: rest) = (select_min best rest).1 ∧
    select_min best rest ∈ best :: rest ∧
    (∀ p ∈ best :: rest, (select_min best rest).2 ≤ p.2) ∧
    (∀ p ∈ best :: rest, p.2 = (select_min best rest).2 →
      (select_min best rest).1 ≤ p.1) :=
  ⟨rfl, select_min_mem best rest, select_min_le best rest,
    select_min_first best rest hs⟩

/-- Witness for `claim_C7`: three sessions with loads `3, 2, 2`; the
selection is session `1`, the first of the two tied minima. -/
theorem claim_C7_witness :
    ([((0 : Int), (3 : Int)), (1, 2), (2, 2)].Pairwise
      (fun p q => p.1 < q.1)) ∧
    (select_index [((0 : Int), (3 : Int)), (1, 2), (2, 2)] =
        (select_min (0, 3) [(1, 2), (2, 2)]).1 ∧
      select_min (0, 3) [(1, 2), (2, 2)] ∈
        [((0 : Int), (3 : Int)), (1, 2), (2, 2)] ∧
      (∀ p ∈ [((0 : Int), (3 : Int)), (1, 2), (2, 2)],
        (select_min (0, 3) [(1, 2), (2, 2)]).2 ≤ p.2) ∧
      (∀ p ∈ [((0 : Int), (3 : Int)), (1, 2), (2, 2)],
        p.2 = (select_min (0, 3) [(1, 2), (2, 2)]).2 →
          (select_min (0, 3) [(1, 2), (2, 2)]).1 ≤ p.1)) :=
  ⟨by decide, claim_C7 (0, 3) [(1, 2), (2, 2)] (by decide)⟩

/-- The offsets passed to the successive `upload.GetFile` calls of one run
of the fetch loop form an arithmetic progression
`off, off + cs, off + 2 cs, …`, of length at most the available fuel. -/
theorem yield_loop_offsets (fetch : Int → FetchResult) (fc lc pc cs : Int) :
    ∀ (fuel : Nat) (cp off : Int),
      ∃ n ≤ fuel, (yield_loop fetch fc lc pc cs fuel cp off).offsets =
        (List.range n).map (fun k : Nat => off + (k : Int) * cs) := by
  intro fuel
  induction fuel with
  | zero => exact fun cp off => ⟨0, Nat.le_refl 0, by simp [yield_loop]⟩
  | succ fuel ih =>
    intro cp off
    by_cases hcp : cp ≤ pc
    · cases hf : fetch off with
      | err => exact ⟨1, by omega, by simp [yield_loop, if_pos hcp, hf, List.range_succ]⟩
      | other => exact ⟨1, by omega, by simp [yield_loop, if_pos hcp, hf, List.range_succ]⟩
      | file chunk =>
        by_cases he : chunk.isEmpty
        · exact ⟨1, by omega, by simp [yield_loop, if_pos hcp, hf, he, List.range_succ]⟩
        · obtain ⟨n, hn, heq⟩ := ih (cp + 1) (off + cs)
          refine ⟨n + 1, by omega, ?_⟩
          simp only [yield_loop, if_pos hcp, hf, he, Bool.false_eq_true,
            if_false, heq]
          rw [List.range_succ_eq_map, List.map_cons, List.map_map]
          congr 1
          · simp
          · refine List.map_congr_left fun k _ => ?_
            simp only [Function.comp_apply]
            push_cast
            ring
    · refine ⟨0, Nat.zero_le _, ?_⟩
      simp [yield_loop, if_neg hcp]

/-- C10 (confirmed): in every run of `yield_file` on a handler-computed
plan, the offsets passed to the successive `upload.GetFile` calls are
`plan.offset + (k-1)·chunk_size` for the k-th call; at most `part_count`
calls are issued, every offset is a non-negative multiple of
`chunk_size`, and the offsets are strictly increasing. -/
theorem claim_C10 (fetch : Int → FetchResult) (from_bytes until_bytes : Int)
    (h0 : 0 ≤ from_bytes) :
    ∃ n ≤ (compute_plan chunk_size from_bytes until_bytes).part_count.toNat,
      (yield_file fetch
          (compute_plan chunk_size from_bytes until_bytes).offset
          (compute_plan chunk_size from_bytes until_bytes).first_part_cut
          (compute_plan chunk_size from_bytes until_bytes).last_part_cut
          (compute_plan chunk_size from_bytes until_bytes).part_count
          chunk_size).offsets =
        (List.range n).map
          (fun k : Nat =>
            (compute_plan chunk_size from_bytes until_bytes).offset +
              (k : Int) * chunk_size) ∧
      (∀ x ∈ (yield_file fetch
          (compute_plan chunk_size from_bytes until_bytes).offset
          (compute_plan chunk_size from_bytes until_bytes).first_part_cut
          (compute_plan chunk_size from_bytes until_bytes).last_part_cut
          (compute_plan chunk_size from_bytes until_bytes).part_count
          chunk_size).offsets, 0 ≤ x ∧ chunk_size ∣ x) ∧
      (yield_file fetch
          (compute_plan chunk_size from_bytes until_bytes).offset
          (compute_plan chunk_size from_bytes until_bytes).first_part_cut
          (compute_plan chunk_size from_bytes until_bytes).last_part_cut
          (compute_plan chunk_size from_bytes until_bytes).part_count
          chunk_size).offsets.Pairwise (· < ·) := by
  simp only [yield_file]
  obtain ⟨n, hn, heq⟩ := yield_loop_offsets fetch
    (compute_plan chunk_size from_bytes until_bytes).first_part_cut
    (compute_plan chunk_size from_bytes until_bytes).last_part_cut
    (compute_plan chunk_size from_bytes until_bytes).part_count chunk_size
    (compute_plan chunk_size from_bytes until_bytes).part_count.toNat 1
    (compute_plan chunk_size from_bytes until_bytes).offset
  have hoff : (compute_plan chunk_size from_bytes until_bytes).offset =
      from_bytes - from_bytes % chunk_size := rfl
  refine ⟨n, hn, heq, ?_, ?_⟩
  · intro x hx
    rw [heq] at hx
    simp only [List.mem_map, List.mem_range] at hx
    obtain ⟨k, _, rfl⟩ := hx
    constructor
    · rw [hoff]
      have hk : (0 : Int) ≤ (k : Int) := Int.natCast_nonneg k
      simp only [chunk_size] at *
      omega
    · have h1 : chunk_size ∣
          (compute_plan chunk_size from_bytes until_bytes).offset := by
        rw [hoff]
        simp only [chunk_size]
        omega
      exact Dvd.dvd.add h1 (dvd_mul_left chunk_size (k : Int))
  · rw [heq]
    refine List.pairwise_map.mpr ?_
    refine (List.pairwise_lt_range n).imp ?_
    intro a b hab
    simp only [chunk_size]
    omega

/-- Witness for `claim_C10` at `from_bytes = until_bytes = 0` and a
backend that never returns an `upload.File`. -/
theorem claim_C10_witness :
    (0 : Int) ≤ 0 ∧
    (∃ n ≤ (compute_plan chunk_size 0 0).part_count.toNat,
      (yield_file (fun _ => FetchResult.other)
          (compute_plan chunk_size 0 0).offset
          (compute_plan chunk_size 0 0).first_part_cut
          (compute_plan chunk_size 0 0).last_part_cut
          (compute_plan chunk_size 0 0).part_count
          chunk_size).offsets =
        (List.range n).map
          (fun k : Nat =>
            (compute_plan chunk_size 0 0).offset + (k : Int) * chunk_size) ∧
      (∀ x ∈ (yield_file (fun _ => FetchResult.other)
          (compute_plan chunk_size 0 0).offset
          (compute_plan chunk_size 0 0).first_part_cut
          (compute_plan chunk_size 0 0).last_part_cut
          (compute_plan chunk_size 0 0).part_count
          chunk_size).offsets, 0 ≤ x ∧ chunk_size ∣ x) ∧
      (yield_file (fun _ => FetchResult.other)
          (compute_plan chunk_size 0 0).offset
          (compute_plan chunk_size 0 0).first_part_cut
          (compute_plan chunk_size 0 0).last_part_cut
          (compute_plan chunk_size 0 0).part_count
          chunk_size).offsets.Pairwise (· < ·)) :=
  ⟨by decide, claim_C10 (fun _ => FetchResult.other) 0 0 (by decide)⟩

/-- If the first `j - 1` fetches return non-empty `upload.File` results
and the j-th returns a silent-end result (a non-`upload.File` response or
an empty payload), the fetch loop stops at the j-th fetch without an
error: it issues exactly `j` fetches and yields exactly `j - 1` chunks. -/
theorem yield_loop_silent_end (fetch : Int → FetchResult) (fc lc pc cs : Int) :
    ∀ (j fuel : Nat) (cp off : Int),
      1 ≤ j → (j : Int) ≤ pc - cp + 1 → fuel = (pc - cp + 1).toNat →
      (∀ k : Nat, k < j - 1 → keeps_going (fetch (off + (k : Int) * cs)) = true) →
      silent_end (fetch (off + ((j : Int) - 1) * cs)) = true →
      (yield_loop fetch fc lc pc cs fuel cp off).errored = false ∧
      (yield_loop fetch fc lc pc cs fuel cp off).offsets.length = j ∧
      (yield_loop fetch fc lc pc cs fuel cp off).yielded.length = j - 1 := by
  intro j
  induction j with
  | zero => intro fuel cp off h1; omega
  | succ j ih =>
    intro fuel cp off _ hle hfuel hbefore hend
    have hcp : cp ≤ pc := by omega
    obtain ⟨fuel', rfl⟩ : ∃ f, fuel = f + 1 := ⟨(pc - cp).toNat, by omega⟩
    by_cases hj : j = 0
    · subst hj
      have hend0 : silent_end (fetch off) = true := by
        have harg : off + (((1 : Nat) : Int) - 1) * cs = off := by push_cast; ring
        rwa [harg] at hend
      cases hf : fetch off with
      | err => rw [hf] at hend0; simp [silent_end] at hend0
      | other => simp [yield_loop, if_pos hcp, hf]
      | file chunk =>
        rw [hf] at hend0
        simp only [silent_end] at hend0
        simp [yield_loop, if_pos hcp, hf, hend0]
    · have h0 : keeps_going (fetch (off + ((0 : Nat) : Int) * cs)) = true :=
        hbefore 0 (by omega)
      have hf0 : keeps_going (fetch off) = true := by
        have harg : off + ((0 : Nat) : Int) * cs = off := by push_cast; ring
        rwa [harg] at h0
      cases hf : fetch off with
      | err => rw [hf] at hf0; simp [keeps_going] at hf0
      | other => rw [hf] at hf0; simp [keeps_going] at hf0
      | file chunk =>
        rw [hf] at hf0
        simp only [keeps_going, Bool.not_eq_true'] at hf0
        have hrec := ih fuel' (cp + 1) (off + cs) (by omega) (by push_cast at hle ⊢; omega)
          (by omega)
          (by
            intro k hk
            have hb := hbefore (k + 1) (by omega)
            have harg : off + (((k + 1 : Nat)) : Int) * cs =
                off + cs + (k : Int) * cs := by push_cast; ring
            rwa [harg] at hb)
          (by
            have harg : off + (((j + 1 : Nat) : Int) - 1) * cs =
                off + cs + (((j : Nat) : Int) - 1) * cs := by
              push_cast
              ring
            rwa [harg] at hend)
        simp only [yield_loop, if_pos hcp, hf, hf0, Bool.false_eq_true, if_false,
          List.length_cons]
        refine ⟨hrec.1, ?_, ?_⟩
        · rw [hrec.2.1]
        · rw [hrec.2.2]; omega

/-- C9 (confirmed): if, before `part_count` parts have been yielded, a
backend fetch returns a result that is not an `upload.File` value or
returns an empty byte string (say at the j-th fetch, after `j - 1` good
chunks), `yield_file` ends the sequence silently: no exception reaches
the consumer, no fetch beyond the j-th is issued, only the `j - 1` good
chunks are yielded, and the `finally` still decrements the load counter
exactly once, restoring `work_loads`. -/
theorem claim_C9 (fetch : Int → FetchResult)
    (index offset first_part_cut last_part_cut part_count chunkSize : Int)
    (consume : Option Nat) (wl : List (Int × Int)) (j : Nat)
    (hj : 1 ≤ j) (hjpc : (j : Int) ≤ part_count)
    (hbefore : ∀ k : Nat, k < j - 1 →
      keeps_going (fetch (offset + (k : Int) * chunkSize)) = true)
    (hend : silent_end (fetch (offset + ((j : Int) - 1) * chunkSize)) = true) :
    (yield_file fetch offset first_part_cut last_part_cut part_count
      chunkSize).errored = false ∧
    (yield_file fetch offset first_part_cut last_part_cut part_count
      chunkSize).offsets.length = j ∧
    (yield_file fetch offset first_part_cut last_part_cut part_count
      chunkSize).yielded.length = j - 1 ∧
    (run_yield_file ⟨true, fetch⟩ index offset first_part_cut last_part_cut
      part_count chunkSize consume wl).1 = wl := by
  have h := yield_loop_silent_end fetch first_part_cut last_part_cut
    part_count chunkSize j part_count.toNat 1 offset hj (by omega) (by omega)
    hbefore hend
  simp only [yield_file]
  exact ⟨h.1, h.2.1, h.2.2, by simp [run_yield_file, adjust_load_cancel]⟩

/-- Witness for `claim_C9`: a three-part plan whose second fetch returns a
non-`upload.File` response; the run yields one chunk, issues two fetches,
raises nothing, and restores the one-entry `work_loads`. -/
theorem claim_C9_witness :
    ((1 : Nat) ≤ 2 ∧ ((2 : Nat) : Int) ≤ 3 ∧
      (∀ k : Nat, k < 2 - 1 →
        keeps_going ((fun o => if o = 0 then FetchResult.file [5]
          else FetchResult.other) (0 + (k : Int) * 2)) = true) ∧
      silent_end ((fun o => if o = 0 then FetchResult.file [5]
        else FetchResult.other) (0 + (((2 : Nat) : Int) - 1) * 2)) = true) ∧
    ((yield_file (fun o => if o = 0 then FetchResult.file [5]
        else FetchResult.other) 0 0 1 3 2).errored = false ∧
      (yield_file (fun o => if o = 0 then FetchResult.file [5]
        else FetchResult.other) 0 0 1 3 2).offsets.length = 2 ∧
      (yield_file (fun o => if o = 0 then FetchResult.file [5]
        else FetchResult.other) 0 0 1 3 2).yielded.length = 2 - 1 ∧
      (run_yield_file ⟨true, fun o => if o = 0 then FetchResult.file [5]
        else FetchResult.other⟩ 0 0 0 1 3 2 none [(0, 1)]).1 = [(0, 1)]) :=
  ⟨⟨by decide, by decide, by decide, by decide⟩,
    claim_C9 (fun o => if o = 0 then FetchResult.file [5]
        else FetchResult.other) 0 0 0 1 3 2 none [(0, 1)] 2
      (by decide) (by decide) (by decide) (by decide)⟩

/-- A non-trivial replicate is not empty (without evaluating the list). -/
theorem replicate_isEmpty_false (n : Nat) (a : Nat) (h : n ≠ 0) :
    (List.replicate n a).isEmpty = false := by
  cases n with
  | zero => omega
  | succ m => simp [List.replicate_succ]

/-- A one-part run (`part_count = 1`) yields the single fetched chunk
sliced `[first_part_cut:last_part_cut]`, hence
`min last_part_cut (len chunk) - first_part_cut` bytes. -/
theorem yield_file_single_part (fetch : Int → FetchResult)
    (off fc lc cs : Int) (chunk : List Nat) (n : Nat)
    (hf : fetch off = .file chunk) (hne : chunk.isEmpty = false)
    (hlen : chunk.length = n) :
    total_bytes (yield_file fetch off fc lc 1 cs) =
      min lc.toNat n - fc.toNat := by
  subst hlen
  have h1 : ((1 : Int)).toNat = 1 := rfl
  simp [yield_file, h1, yield_loop, hf, hne, total_bytes, List.length_drop,
    List.length_take]

/-- C1 (code bug): the valid ranged request `bytes=1048575-1048576` on a
`3·2²⁰`-byte file (0 ≤ start ≤ end < fileSize) crosses a chunk boundary,
but `part_count = math.ceil(req_length / chunk_size)` evaluates to `1`,
so `yield_file` slices the single fetched chunk
`[1048575:1]` — the empty string — and the full stream delivers `0`
bytes instead of `end - start + 1 = 2`, even though the handler
advertises `Content-Length: 2`. -/
theorem claim_C1_code_bug :
    compute_plan chunk_size 1048575 1048576 =
      { offset := 0, first_part_cut := 1048575, last_part_cut := 1,
        part_count := 1 } ∧
    total_bytes (yield_file (full_fetch (3 * 1048576) chunk_size)
      0 1048575 1 1 chunk_size) = 0 ∧
    (stream_handler true (some ⟨3 * 1048576, none⟩)
        (some (1048575, some 1048576))).headers = some
      { content_type := default_mime,
        content_range := some (1048575, 1048576, 3 * 1048576),
        content_length := 2, accept_ranges := true,
        content_disposition := true } := by
  refine ⟨by decide, ?_, by decide⟩
  rw [yield_file_single_part (full_fetch (3 * 1048576) chunk_size)
    0 1048575 1 chunk_size
    (List.replicate ((min chunk_size (3 * 1048576 - 0)).toNat) 0) 1048576 rfl
    (replicate_isEmpty_false _ 0 (by decide))
    (by simp only [List.length_replicate]; decide)]
  decide

/-- C3 (code bug): for `fileSize = 3·2²⁰` and `Range: bytes=500000-1500000`
the code computes `part_count = math.ceil(1000001 / 1048576) = 1`, not
`2` as the claim states; consequently `yield_file` performs a single
fetch sliced `[500000:451425]`, the empty string, and the stream delivers
`0` bytes rather than `1,000,001` — while the response still carries
status 206 and `Content-Length: 1000001`. -/
theorem claim_C3_code_bug :
    compute_plan chunk_size 500000 1500000 =
      { offset := 0, first_part_cut := 500000, last_part_cut := 451425,
        part_count := 1 } ∧
    total_bytes (yield_file (full_fetch (3 * 1048576) chunk_size)
      0 500000 451425 1 chunk_size) = 0 ∧
    (stream_handler true (some ⟨3 * 1048576, none⟩)
        (some (500000, some 1500000))).status = 206 ∧
    (stream_handler true (some ⟨3 * 1048576, none⟩)
        (some (500000, some 1500000))).headers = some
      { content_type := default_mime,
        content_range := some (500000, 1500000, 3 * 1048576),
        content_length := 1000001, accept_ranges := true,
        content_disposition := true } := by
  refine ⟨by decide, ?_, by decide, by decide⟩
  rw [yield_file_single_part (full_fetch (3 * 1048576) chunk_size)
    0 500000 451425 chunk_size
    (List.replicate ((min chunk_size (3 * 1048576 - 0)).toNat) 0) 1048576 rfl
    (replicate_isEmpty_false _ 0 (by decide))
    (by simp only [List.length_replicate]; decide)]
  decide

/-- C2 (code bug): `HTTPException(416)` is raised inside the handler's
`try` block, and `fastapi.HTTPException` is a subclass of `Exception`,
so the blanket `except Exception` converts every invalid-range request
into a 500 response — no request ever observes 416 (first three
conjuncts, for `until ≥ fileSize` and for `from < 0`, in both
handlers).  Moreover `from > until` is not validated at all: `bytes=5-3`
passes the check, gets `part_count = 0`, and streams as a 206 response
with an empty body instead of any range error (last three conjuncts). -/
theorem claim_C2_code_bug :
    stream_handler true (some ⟨10, none⟩) (some (0, some 10)) =
      DlResponse.failure 500 ∧
    stream_media true (some ⟨10, none⟩) (some (0, some 10)) =
      DlResponse.failure 500 ∧
    stream_handler true (some ⟨10, none⟩) (some (-1, some 5)) =
      DlResponse.failure 500 ∧
    (stream_handler true (some ⟨10, none⟩) (some (5, some 3))).status = 206 ∧
    (compute_plan chunk_size 5 3).part_count = 0 ∧
    total_bytes (yield_file (full_fetch 10 chunk_size)
      0 5 4 0 chunk_size) = 0 := by
  decide

/-- C5 (code bug): in src/app.py a request with no `Range` header leaves
the local `ubs` unassigned, so `if ubs:` (line 118) raises
`UnboundLocalError` and `stream_media` answers 500 with no body — not
200 with `fileSize` bytes.  The webserver.py handler behaves as the
claim states: status 200, plan `⟨0, 0, 1048576, 3⟩`, and a full stream
of exactly `fileSize = 3·2²⁰` bytes under the full-chunk backend. -/
theorem claim_C5_code_bug :
    stream_media true (some ⟨3 * 1048576, none⟩) none =
      DlResponse.failure 500 ∧
    (stream_handler true (some ⟨3 * 1048576, none⟩) none).status = 200 ∧
    (stream_handler true (some ⟨3 * 1048576, none⟩) none).plan =
      some { offset := 0, first_part_cut := 0, last_part_cut := 1048576,
             part_count := 3 } ∧
    (stream_handler true (some ⟨2, none⟩) none).status = 200 ∧
    (stream_handler true (some ⟨2, none⟩) none).plan =
      some { offset := 0, first_part_cut := 0, last_part_cut := 2,
             part_count := 1 } ∧
    total_bytes (yield_file (full_fetch 2 chunk_size)
      0 0 2 1 chunk_size) = 2 := by
  decide

/-- C8, counterexample to the claim as stated: in src/webserver.py the
headers dict (lines 180-186) is built unconditionally, so a full
response — status 200, no `Range` header — still carries
`Content-Range`, contradicting "a full response carries no Content-Range
header". -/
theorem claim_C8_counterexample :
    stream_handler true (some ⟨5, none⟩) none =
      DlResponse.stream 200
        { content_type := default_mime, content_range := some (0, 4, 5),
          content_length := 5, accept_ranges := true,
          content_disposition := true }
        (compute_plan chunk_size 0 4) := by
  decide

/-- C8, amended: on every successful response of the webserver.py handler
— 206 for ranged requests and 200 for un-ranged ones —
`Content-Type`, `Accept-Ranges`, `Content-Length` (equal to the requested
byte count) and `Content-Disposition` are present, and `Content-Range:
bytes <from>-<until>/<fileSize>` is present unconditionally, on full
responses as well.  In the src/app.py handler `Content-Range` is attached
exactly on partial responses, as the claim states, but only vacuously so
for full responses: an un-ranged request never succeeds there (it fails
with 500). -/
theorem claim_C8_amended (m : MediaInfo) (f u : Int)
    (_hfs : 1 ≤ m.file_size) (hf : 0 ≤ f) (hu : u < m.file_size) :
    stream_handler true (some m) none =
      DlResponse.stream 200
        { content_type := m.mime_type.getD default_mime,
          content_range := some (0, m.file_size - 1, m.file_size),
          content_length := m.file_size, accept_ranges := true,
          content_disposition := true }
        (compute_plan chunk_size 0 (m.file_size - 1)) ∧
    stream_handler true (some m) (some (f, some u)) =
      DlResponse.stream 206
        { content_type := m.mime_type.getD default_mime,
          content_range := some (f, u, m.file_size),
          content_length := u - f + 1, accept_ranges := true,
          content_disposition := true }
        (compute_plan chunk_size f u) ∧
    stream_media true (some m) (some (f, some u)) =
      DlResponse.stream 206
        { content_type := m.mime_type.getD default_mime,
          content_range := some (f, u, m.file_size),
          content_length := u - f + 1, accept_ranges := true,
          content_disposition := true }
        (compute_plan chunk_size f u) ∧
    stream_media true (some m) none = DlResponse.failure 500 := by
  have hc1 : ¬(m.file_size - 1 ≥ m.file_size ∨ (0 : Int) < 0) := by omega
  have hc2 : ¬(u ≥ m.file_size ∨ f < 0) := by omega
  refine ⟨?_, ?_, ?_, ?_⟩
  · simp only [stream_handler, Bool.not_true, Bool.false_eq_true, if_false,
      if_neg hc1, Option.isSome_none]
    have he : m.file_size - 1 - 0 + 1 = m.file_size := by omega
    rw [he]
  · simp only [stream_handler, Bool.not_true, Bool.false_eq_true, if_false,
      if_neg hc2, Option.isSome_some]
    simp
  · simp only [stream_media, Bool.not_true, Bool.false_eq_true, if_false,
      if_neg hc2]
  · simp only [stream_media, Bool.not_true, Bool.false_eq_true, if_false]

/-- Witness for `claim_C8_amended` at a 5-byte media with no mime type and
the range `bytes=1-3`. -/
theorem claim_C8_witness :
    ((1 : Int) ≤ (MediaInfo.mk 5 none).file_size ∧ (0 : Int) ≤ 1 ∧
      (3 : Int) < (MediaInfo.mk 5 none).file_size) ∧
    (stream_handler true (some (MediaInfo.mk 5 none)) none =
      DlResponse.stream 200
        { content_type := (MediaInfo.mk 5 none).mime_type.getD default_mime,
          content_range := some (0, (MediaInfo.mk 5 none).file_size - 1,
            (MediaInfo.mk 5 none).file_size),
          content_length := (MediaInfo.mk 5 none).file_size,
          accept_ranges := true, content_disposition := true }
        (compute_plan chunk_size 0 ((MediaInfo.mk 5 none).file_size - 1)) ∧
    stream_handler true (some (MediaInfo.mk 5 none)) (some (1, some 3)) =
      DlResponse.stream 206
        { content_type := (MediaInfo.mk 5 none).mime_type.getD default_mime,
          content_range := some (1, 3, (MediaInfo.mk 5 none).file_size),
          content_length := 3 - 1 + 1, accept_ranges := true,
          content_disposition := true }
        (compute_plan chunk_size 1 3) ∧
    stream_media true (some (MediaInfo.mk 5 none)) (some (1, some 3)) =
      DlResponse.stream 206
        { content_type := (MediaInfo.mk 5 none).mime_type.getD default_mime,
          content_range := some (1, 3, (MediaInfo.mk 5 none).file_size),
          content_length := 3 - 1 + 1, accept_ranges := true,
          content_disposition := true }
        (compute_plan chunk_size 1 3) ∧
    stream_media true (some (MediaInfo.mk 5 none)) none =
      DlResponse.failure 500) :=
  ⟨⟨by decide, by decide, by decide⟩,
    claim_C8_amended (MediaInfo.mk 5 none) 1 3 (by decide) (by decide)
      (by decide)⟩

/-- The numeral value of `chunk_size.toNat`, for linear arithmetic. -/
theorem chunk_size_toNat : chunk_size.toNat = 1048576 := rfl

/-- Total bytes contributed by the tail of a full-chunk run: starting at
part `cp ≥ 2` with `n = pc - cp + 1 ≥ 1` parts to go and enough file left
for them, the loop yields one full chunk per interior part and
`last_part_cut` bytes for the final part. -/
theorem yield_loop_tail_total (fs fc lc pc : Int) :
    ∀ (n : Nat) (cp off : Int), 1 ≤ n → pc - cp + 1 = (n : Int) → 2 ≤ cp →
      0 < lc → lc ≤ chunk_size →
      off + ((n : Int) - 1) * chunk_size + lc ≤ fs →
      total_bytes (yield_loop (full_fetch fs chunk_size) fc lc pc chunk_size
        n cp off) = (n - 1) * chunk_size.toNat + lc.toNat := by
  intro n
  induction n with
  | zero => intro cp off h1; omega
  | succ n ih =>
    intro cp off _ hn hcp hlc hlc2 hfs
    have hcppc : cp ≤ pc := by omega
    have hpc1 : ¬pc = 1 := by omega
    have hcp1 : ¬cp = 1 := by omega
    have hne : (List.replicate ((min chunk_size (fs - off)).toNat) 0).isEmpty
        = false := by
      refine replicate_isEmpty_false _ 0 ?_
      simp only [chunk_size] at *
      omega
    by_cases hn0 : n = 0
    · subst hn0
      have hcpeq : cp = pc := by omega
      simp only [yield_loop, if_pos hcppc, full_fetch, hne,
        Bool.false_eq_true, if_false, if_neg hpc1, if_neg hcp1,
        if_pos hcpeq, total_bytes, List.map_cons, List.map_nil,
        List.length_take, List.length_replicate, List.sum_cons,
        List.sum_nil, chunk_size_toNat]
      simp only [chunk_size] at *
      omega
    · have hcpne : ¬cp = pc := by omega
      have hrec := ih (cp + 1) (off + chunk_size) (by omega) (by omega)
        (by omega) hlc hlc2 (by simp only [chunk_size] at *; omega)
      simp only [yield_loop, if_pos hcppc, full_fetch, hne,
        Bool.false_eq_true, if_false, if_neg hpc1, if_neg hcp1,
        if_neg hcpne, total_bytes, List.map_cons, List.sum_cons,
        List.length_replicate, chunk_size_toNat] at hrec ⊢
      rw [hrec]
      simp only [chunk_size] at *
      omega

/-- Exact byte count of a complete `yield_file` run over the full-chunk
backend, for every valid request (`0 ≤ from ≤ until < fileSize`) and the
plan computed by the handler: the stream delivers `until - from + 1`
bytes exactly when `from % chunk_size ≤ until % chunk_size`; otherwise
`part_count` undercounts the crossed chunk boundary and the stream falls
short by exactly `chunk_size` bytes (clamped at zero).  This makes the
failure of the byte-count property of spec §8.1 precise. -/
theorem yield_file_full_fetch_total (from_bytes until_bytes file_size : Int)
    (_h0 : 0 ≤ from_bytes) (h1 : from_bytes ≤ until_bytes)
    (h2 : until_bytes < file_size) :
    total_bytes (yield_file (full_fetch file_size chunk_size)
      (compute_plan chunk_size from_bytes until_bytes).offset
      (compute_plan chunk_size from_bytes until_bytes).first_part_cut
      (compute_plan chunk_size from_bytes until_bytes).last_part_cut
      (compute_plan chunk_size from_bytes until_bytes).part_count
      chunk_size) =
    (if from_bytes % chunk_size ≤ until_bytes % chunk_size
      then until_bytes - from_bytes + 1
      else until_bytes - from_bytes + 1 - chunk_size).toNat := by
  have hoff : (compute_plan chunk_size from_bytes until_bytes).offset =
      from_bytes - from_bytes % chunk_size := rfl
  have hfc : (compute_plan chunk_size from_bytes until_bytes).first_part_cut =
      from_bytes % chunk_size := by
    simp only [compute_plan]
    omega
  have hlcv : (compute_plan chunk_size from_bytes until_bytes).last_part_cut =
      until_bytes % chunk_size + 1 := rfl
  have hpcv : (compute_plan chunk_size from_bytes until_bytes).part_count =
      ceil_div (until_bytes - from_bytes + 1) chunk_size := rfl
  rw [hoff, hfc, hlcv, hpcv]
  by_cases hone : ceil_div (until_bytes - from_bytes + 1) chunk_size = 1
  · rw [hone]
    rw [yield_file_single_part (full_fetch file_size chunk_size)
      (from_bytes - from_bytes % chunk_size) (from_bytes % chunk_size)
      (until_bytes % chunk_size + 1) chunk_size
      (List.replicate ((min chunk_size
        (file_size - (from_bytes - from_bytes % chunk_size))).toNat) 0)
      ((min chunk_size
        (file_size - (from_bytes - from_bytes % chunk_size))).toNat)
      rfl
      (by
        refine replicate_isEmpty_false _ 0 ?_
        simp only [chunk_size] at *
        omega)
      (List.length_replicate _ _)]
    simp only [ceil_div, chunk_size] at hone ⊢
    split <;> omega
  · have hpcge : 1 ≤ ceil_div (until_bytes - from_bytes + 1) chunk_size := by
      simp only [ceil_div, chunk_size] at *
      omega
    have hfuel : (ceil_div (until_bytes - from_bytes + 1) chunk_size).toNat =
        (ceil_div (until_bytes - from_bytes + 1) chunk_size - 1).toNat + 1 := by
      omega
    have hne : (List.replicate ((min chunk_size
        (file_size - (from_bytes - from_bytes % chunk_size))).toNat) 0).isEmpty
        = false := by
      refine replicate_isEmpty_false _ 0 ?_
      simp only [chunk_size] at *
      omega
    have hcast : (((ceil_div (until_bytes - from_bytes + 1) chunk_size
        - 1).toNat : Nat) : Int) =
        ceil_div (until_bytes - from_bytes + 1) chunk_size - 1 := by omega
    have htail := yield_loop_tail_total file_size (from_bytes % chunk_size)
      (until_bytes % chunk_size + 1)
      (ceil_div (until_bytes - from_bytes + 1) chunk_size)
      ((ceil_div (until_bytes - from_bytes + 1) chunk_size - 1).toNat)
      (1 + 1)
      (from_bytes - from_bytes % chunk_size + chunk_size)
      (by omega)
      (by rw [hcast]; omega)
      (by omega)
      (by simp only [chunk_size] at *; omega)
      (by simp only [chunk_size] at *; omega)
      (by
        rw [hcast]
        simp only [ceil_div, chunk_size] at *
        omega)
    simp only [yield_file, hfuel, yield_loop, if_pos hpcge, full_fetch, hne,
      Bool.false_eq_true, if_false, if_neg hone, if_pos rfl, if_true,
      total_bytes, List.map_cons, List.sum_cons, List.length_drop,
      List.length_replicate, chunk_size_toNat] at htail ⊢
    rw [htail]
    simp only [ceil_div, chunk_size] at *
    omega

end FileToStream
